import Mathlib

/-!
Shallow embedding of the job-lifecycle engine of the timkrebs/go-microservice
image-processing platform, together with theorems checking the natural-language
specification against the code.

The embedding follows the Go sources:
  - internal/models/job.go        (data model: JobStatus, Operation, Job)
  - internal/database/jobs.go     (JobRepository: the conditional-SQL state machine)
  - internal/api/handlers.go      (acceptor HTTP handlers)
  - internal/queue  (producer.go and the consumer, whose source appears at the
    end of internal/queue/queue_test.go)
  - internal/cleanup (the retention sweeper, cleanupJob and the cleanup cycle)
  - cmd/worker/main.go            (worker dispatch, processJob)

The metadata store is modelled as a list of rows; each SQL statement becomes an
explicit list transformation that mirrors its WHERE clause and SET list, and
RowsAffected becomes the count of matched rows.  Timestamps are integers
(epoch milliseconds); `time.Hour` is 3600000 ms.
-/

/-- Wall-clock time in epoch milliseconds. -/
abbrev Time := Int

/-- models.JobStatus: the six lifecycle states (string constants in Go). -/
inductive JobStatus where
  | pending
  | queued
  | processing
  | completed
  | failed
  | cancelled
deriving DecidableEq, Repr

/-- models.Operation: a named transformation with an opaque parameter bag
(`map[string]interface{}` in Go, modelled as string-keyed scalar pairs). -/
structure Operation where
  operation : String
  parameters : List (String × String)
deriving DecidableEq, Repr

/-- models.Job as stored in the jobs table (one row per submission).  Nullable
columns are `Option`; `operations` keeps the decoded list (the JSONB column
round-trips through MarshalOperations/UnmarshalOperations). -/
structure JobRow where
  id : Nat
  status : JobStatus
  originalKey : String
  processedKey : Option String
  originalName : String
  contentType : String
  fileSize : Int
  operations : List Operation
  error : Option String
  progress : Int
  workerId : Option String
  userId : Nat
  createdAt : Time
  updatedAt : Time
  startedAt : Option Time
  completedAt : Option Time
  processingTimeMs : Option Int
  deleteAt : Option Time
deriving DecidableEq, Repr

/-- The jobs table. -/
abbrev Store := List JobRow

/-- One conditional SQL UPDATE: apply `f` to every row matching `p`, and return
the new table together with RowsAffected. -/
def updateWhere (p : JobRow → Bool) (f : JobRow → JobRow) (s : Store) : Store × Nat :=
  (s.map fun r => if p r then f r else r, (s.filter p).length)

/-- One SQL DELETE: drop every row matching `p`, returning RowsAffected. -/
def deleteWhere (p : JobRow → Bool) (s : Store) : Store × Nat :=
  (s.filter fun r => !p r, (s.filter p).length)

/-- jobs.go GetByID: `SELECT ... WHERE id = $1`.  Mirrors the Go return pair
`(*models.Job, error)`: a missing row yields `(nil, ErrNotFound)` — the error
component is `some .notFound`, and the job pointer is `none`. -/
inductive DbError where
  | notFound
  | transport
deriving DecidableEq, Repr

def getByID (s : Store) (id : Nat) : Option JobRow × Option DbError :=
  match s.find? (fun r => decide (r.id = id)) with
  | some j => (some j, none)
  | none => (none, some DbError.notFound)

/-- jobs.go UpdateStatus: `UPDATE jobs SET status = $1 WHERE id = $2`;
RowsAffected = 0 yields the error "job not found". -/
def updateStatus (s : Store) (id : Nat) (st : JobStatus) : Store × Option String :=
  let res := updateWhere (fun r => decide (r.id = id)) (fun r => { r with status := st }) s
  (res.1, if res.2 = 0 then some "job not found" else none)

/-- jobs.go StartProcessing:
`UPDATE jobs SET status = processing, worker_id = $2, started_at = $3 WHERE id = $4`.
The WHERE clause matches on id only, and the Go code returns the bare
ExecContext error without checking RowsAffected, so absent a transport failure
the call always succeeds. -/
def startProcessing (s : Store) (now : Time) (id : Nat) (workerId : String) :
    Store × Option String :=
  ((updateWhere (fun r => decide (r.id = id))
      (fun r => { r with status := JobStatus.processing,
                         workerId := some workerId,
                         startedAt := some now }) s).1,
   none)

/-- jobs.go CompleteJob: first `SELECT started_at FROM jobs WHERE id = $1`
(ErrNoRows when the row is missing), compute processing time when started_at is
non-null, then
`UPDATE ... SET status, processed_key, progress = 100, completed_at,
processing_time_ms, delete_at = now + retentionHours hours WHERE id`. -/
def completeJob (s : Store) (now : Time) (id : Nat) (processedKey : String)
    (retentionHours : Int) : Store × Option String :=
  match s.find? (fun r => decide (r.id = id)) with
  | none => (s, some "failed to get started_at")
  | some row =>
    let processingTime : Int :=
      match row.startedAt with
      | some t => now - t
      | none => 0
    let deleteAt : Time := now + retentionHours * 3600000
    ((updateWhere (fun r => decide (r.id = id))
        (fun r => { r with status := JobStatus.completed,
                           processedKey := some processedKey,
                           progress := 100,
                           completedAt := some now,
                           processingTimeMs := some processingTime,
                           deleteAt := some deleteAt }) s).1,
     none)

/-- jobs.go FailJob:
`UPDATE jobs SET status = failed, error = $2, completed_at = $3 WHERE id = $4`.
The SET list does not mention delete_at. -/
def failJob (s : Store) (now : Time) (id : Nat) (errorMsg : String) :
    Store × Option String :=
  ((updateWhere (fun r => decide (r.id = id))
      (fun r => { r with status := JobStatus.failed,
                         error := some errorMsg,
                         completedAt := some now }) s).1,
   none)

/-- jobs.go CancelJob:
`UPDATE jobs SET status = cancelled WHERE id = $2 AND status IN (pending, queued)`;
RowsAffected = 0 yields the not-cancellable error. -/
def cancelJob (s : Store) (id : Nat) : Store × Option String :=
  let res := updateWhere
    (fun r => decide (r.id = id) &&
      (decide (r.status = JobStatus.pending) || decide (r.status = JobStatus.queued)))
    (fun r => { r with status := JobStatus.cancelled }) s
  (res.1, if res.2 = 0 then some "job cannot be canceled (already processing or completed)" else none)

/-- jobs.go DeleteJob: `DELETE FROM jobs WHERE id = $1`; RowsAffected = 0 yields
"job not found". -/
def deleteJob (s : Store) (id : Nat) : Store × Option String :=
  let res := deleteWhere (fun r => decide (r.id = id)) s
  (res.1, if res.2 = 0 then some "job not found" else none)

/-- A row eligible for the sweeper: `delete_at IS NOT NULL AND delete_at < NOW()`. -/
def expiredAt (now : Time) (j : JobRow) : Bool :=
  match j.deleteAt with
  | some t => decide (t < now)
  | none => false

/-- Sort key for `ORDER BY delete_at ASC` (every selected row has a non-null
delete_at, so the default for null is irrelevant). -/
def deleteAtKey (j : JobRow) : Time := j.deleteAt.getD 0

/-- Insert a row into a list sorted by delete_at, keeping it sorted. -/
def insortJob (j : JobRow) : List JobRow → List JobRow
  | [] => [j]
  | a :: t => if deleteAtKey j ≤ deleteAtKey a then j :: a :: t else a :: insortJob j t

/-- Insertion sort by delete_at ascending, modelling `ORDER BY delete_at ASC`. -/
def sortByDeleteAt : List JobRow → List JobRow
  | [] => []
  | a :: t => insortJob a (sortByDeleteAt t)

/-- jobs.go GetJobsToCleanup:
`SELECT ... WHERE delete_at IS NOT NULL AND delete_at < NOW()
 ORDER BY delete_at ASC LIMIT $1`. -/
def getJobsToCleanup (s : Store) (now : Time) (limit : Nat) : List JobRow :=
  (sortByDeleteAt (s.filter (expiredAt now))).take limit

/-!
The cleanup sweeper (internal/cleanup).  The blob store is a list of keys; a
per-key transport-failure oracle models MinIO delete errors, which the Go code
only logs (`logger.Error(...)` then fall-through).
-/

/-- Transport-failure oracle for blob deletes. -/
structure CleanupEnv where
  blobFail : String → Bool

/-- storage.Delete as used by the sweeper: on transport failure the blob store
is untouched (the error is logged and discarded); otherwise the key is removed. -/
def storageDelete (env : CleanupEnv) (blobs : List String) (k : String) : List String :=
  if env.blobFail k then blobs else blobs.filter (fun b => !(b == k))

/-- cleanup worker cleanupJob: best-effort delete of the original blob (guarded
by `job.OriginalKey != ""`), best-effort delete of the processed blob if
non-empty, then DeleteJob; only the row delete can surface an error. -/
def cleanupJob (env : CleanupEnv) (blobs : List String) (s : Store) (j : JobRow) :
    List String × Store × Option String :=
  let blobs1 := if j.originalKey = "" then blobs else storageDelete env blobs j.originalKey
  let blobs2 := if j.processedKey.getD "" = "" then blobs1
    else storageDelete env blobs1 (j.processedKey.getD "")
  let res := deleteJob s j.id
  (blobs2, res.1, res.2)

/-- The per-cycle loop of cleanup worker `cleanup`: each job in the batch is
cleaned; a cleanupJob error is logged and the loop continues with the next job. -/
def runCleanupList (env : CleanupEnv) : List JobRow → List String → Store → List String × Store
  | [], blobs, s => (blobs, s)
  | j :: t, blobs, s =>
    let step := cleanupJob env blobs s j
    runCleanupList env t step.1 step.2.1

/-- One sweeper cycle: select the batch with GetJobsToCleanup, then clean each
selected job. -/
def cleanupCycle (env : CleanupEnv) (blobs : List String) (s : Store) (now : Time)
    (batchSize : Nat) : List String × Store :=
  runCleanupList env (getJobsToCleanup s now batchSize) blobs s

/-!
The acceptor HTTP layer (internal/api/handlers.go).
-/

/-- A JSON response body: writeError produces an error object, writeJSON a job
or a status object. -/
inductive HttpBody where
  | errMsg (msg : String)
  | jobBody (job : JobRow)
  | statusMsg (msg : String)
deriving DecidableEq, Repr

structure HttpResponse where
  status : Nat
  body : HttpBody
deriving DecidableEq, Repr

/-- handlers.go GetJob: parse the id, call GetByID, answer 500 on any error,
404 when the job pointer is nil, else 200 with the row.  (GetByID reports a
missing row through its error component, so the nil-pointer branch is dead.) -/
def getJobHandler (s : Store) (id : Nat) : HttpResponse :=
  let res := getByID s id
  if res.2.isSome then ⟨500, HttpBody.errMsg "failed to get job"⟩
  else
    match res.1 with
    | none => ⟨404, HttpBody.errMsg "job not found"⟩
    | some job => ⟨200, HttpBody.jobBody job⟩

/-- handlers.go CancelJob: call the repository CancelJob and answer 400 with the
error text on failure, else 200 with a status object. -/
def cancelJobHandler (s : Store) (id : Nat) : HttpResponse × Store :=
  match cancelJob s id with
  | (s1, some e) => (⟨400, HttpBody.errMsg e⟩, s1)
  | (s1, none) => (⟨200, HttpBody.statusMsg "canceled"⟩, s1)

/-- models.JobMessage: the on-queue payload. -/
structure JobMessage where
  jobId : Nat
  operations : List Operation
deriving DecidableEq, Repr

/-- The three shared resources the acceptor touches while creating a job. -/
structure SysState where
  store : Store
  blobs : List String
  queue : List JobMessage
deriving DecidableEq, Repr

/-- Transport outcomes for the two fallible effects of CreateJob that the
claims exercise (storage.Upload and producer.Enqueue). -/
structure AcceptorEnv where
  uploadOk : Bool
  enqueueOk : Bool

/-- The `operations` multipart field: absent or empty string, malformed JSON,
or a successfully decoded list. -/
inductive OpsField where
  | emptyField
  | malformed
  | parsed (ops : List Operation)
deriving DecidableEq, Repr

/-- A POST /api/v1/jobs request after HTTP decoding. -/
structure CreateReq where
  parseOk : Bool
  hasImage : Bool
  contentTypeHeader : String
  filename : String
  size : Int
  opsField : OpsField
deriving Repr

/-- Observable effects of one CreateJob run, in execution order. -/
inductive Event where
  | uploadedBlob (key : String)
  | insertedRow (id : Nat)
  | setStatus (id : Nat) (st : JobStatus)
  | enqueuedMsg (id : Nat)
  | enqueueFailed (id : Nat)
deriving DecidableEq, Repr

/-- handlers.go isValidImageType (strings.EqualFold membership test). -/
def isValidImageType (contentType : String) : Bool :=
  ["image/jpeg", "image/jpg", "image/png", "image/gif"].any
    (fun t => contentType.toLower == t.toLower)

/-- handlers.go detectContentType (filename-extension fallback). -/
def detectContentType (filename : String) : String :=
  let lower := filename.toLower
  if lower.endsWith ".jpg" || lower.endsWith ".jpeg" then "image/jpeg"
  else if lower.endsWith ".png" then "image/png"
  else if lower.endsWith ".gif" then "image/gif"
  else "application/octet-stream"

/-- handlers.go isValidOperation: membership in the fixed set of twelve names. -/
def isValidOperation (op : String) : Bool :=
  ["resize", "thumbnail", "blur", "sharpen", "grayscale", "sepia", "rotate",
   "flip", "brightness", "contrast", "saturation", "watermark"].contains op

/-- The default operation injected when the request supplies none. -/
def defaultThumbnail : Operation := ⟨"thumbnail", [("size", "150")]⟩

/-- The row inserted by models.NewJob plus JobRepository.Create: status pending,
and the columns absent from the INSERT take their schema defaults
(progress 0, everything else NULL). -/
def mkNewRow (id userId : Nat) (originalKey filename ct : String) (size : Int)
    (ops : List Operation) (now : Time) : JobRow :=
  { id := id, status := JobStatus.pending, originalKey := originalKey,
    processedKey := none, originalName := filename, contentType := ct,
    fileSize := size, operations := ops, error := none, progress := 0,
    workerId := none, userId := userId, createdAt := now, updatedAt := now,
    startedAt := none, completedAt := none, processingTimeMs := none,
    deleteAt := none }

/-- handlers.go CreateJob, step by step: parse the form, require the image
file, validate the content type with extension fallback, decode and validate
the operations list, inject the default thumbnail when empty, upload the
original, insert the row (status pending), update it to queued, enqueue the
message, and on enqueue failure revert the row to pending and answer 500.
The trace records the effects in execution order. -/
def createJob (env : AcceptorEnv) (now : Time) (userId : Nat) (newId : Nat)
    (req : CreateReq) (st : SysState) : HttpResponse × SysState × List Event :=
  if !req.parseOk then (⟨400, HttpBody.errMsg "failed to parse form"⟩, st, [])
  else if !req.hasImage then (⟨400, HttpBody.errMsg "image file is required"⟩, st, [])
  else
    let ct :=
      if isValidImageType req.contentTypeHeader then req.contentTypeHeader
      else detectContentType req.filename
    if !isValidImageType ct then
      (⟨400, HttpBody.errMsg "invalid image type, must be JPEG, PNG, or GIF"⟩, st, [])
    else
      match req.opsField with
      | OpsField.malformed => (⟨400, HttpBody.errMsg "invalid operations JSON"⟩, st, [])
      | of =>
        let ops0 : List Operation :=
          match of with
          | OpsField.parsed l => l
          | _ => []
        match ops0.find? (fun op => !isValidOperation op.operation) with
        | some op0 =>
          (⟨400, HttpBody.errMsg ("invalid operation: " ++ op0.operation)⟩, st, [])
        | none =>
          let ops := if ops0.isEmpty then [defaultThumbnail] else ops0
          let originalKey :=
            "users/" ++ toString userId ++ "/original/" ++ toString newId ++ "/" ++ req.filename
          if !env.uploadOk then (⟨500, HttpBody.errMsg "failed to upload file"⟩, st, [])
          else
            let blobs1 := originalKey :: st.blobs
            let row := mkNewRow newId userId originalKey req.filename ct req.size ops now
            let store1 := st.store ++ [row]
            let store2 := (updateStatus store1 newId JobStatus.queued).1
            let ev2 := [Event.uploadedBlob originalKey, Event.insertedRow newId,
                        Event.setStatus newId JobStatus.queued]
            if !env.enqueueOk then
              let store3 := (updateStatus store2 newId JobStatus.pending).1
              (⟨500, HttpBody.errMsg "failed to queue job"⟩,
               ⟨store3, blobs1, st.queue⟩,
               ev2 ++ [Event.enqueueFailed newId, Event.setStatus newId JobStatus.pending])
            else
              (⟨201, HttpBody.jobBody { row with status := JobStatus.queued }⟩,
               ⟨store2, blobs1, st.queue ++ [⟨newId, ops⟩]⟩,
               ev2 ++ [Event.enqueuedMsg newId])

/-!
The queue consumer (source at the end of internal/queue/queue_test.go).
A Redis-stream entry is an id plus field-value pairs; the client state holds
the pending-entries list of this consumer (read but unacked, in delivery order),
the not-yet-delivered entries visible within the poll window, and a transport
health flag.  JSON decoding of the payload is an abstract parameter.
-/

structure XMessage where
  id : String
  values : List (String × String)
deriving DecidableEq, Repr

structure RedisState where
  pending : List XMessage
  fresh : List XMessage
  ok : Bool
deriving DecidableEq, Repr

/-- queue.Message: the value Consume hands to the dispatch loop. -/
structure Message where
  id : String
  job : JobMessage
  data : String
deriving DecidableEq, Repr

/-- Field lookup in a stream entry (`redisMsg.Values["data"]`). -/
def lookupField (values : List (String × String)) (k : String) : Option String :=
  (values.find? (fun p => p.1 == k)).map (fun p => p.2)

/-- queue consumer parseMessage: require the "data" field, then unmarshal the
JobMessage payload. -/
def parseMessage (decode : String → Option JobMessage) (m : XMessage) :
    Except String Message :=
  match lookupField m.values "data" with
  | none => Except.error "invalid message format: missing data field"
  | some d =>
    match decode d with
    | none => Except.error "failed to unmarshal job message"
    | some jm => Except.ok ⟨m.id, jm, d⟩

/-- queue consumer Consume: phase one re-reads the pending entries owned by this consumer
entries (XReadGroup from id 0, which never blocks); only when there are none
does phase two block up to the poll timeout for fresh entries (XReadGroup from
the tail).  A timed-out blocking read (redis.Nil) yields no message and no
error; delivering a fresh entry moves it onto the pending list of this consumer;
a transport failure surfaces as an error. -/
def consume (decode : String → Option JobMessage) (st : RedisState) :
    Except String (Option Message) × RedisState :=
  if !st.ok then (Except.error "failed to read pending messages", st)
  else
    match st.pending with
    | m :: _ => ((parseMessage decode m).map some, st)
    | [] =>
      match st.fresh with
      | [] => (Except.ok none, st)
      | m :: rest =>
        ((parseMessage decode m).map some,
         { st with pending := st.pending ++ [m], fresh := rest })

/-!
The job state machine as actually driven by the components (C10).  The step
relation has one constructor per repository mutation with a call site in the
codebase: Create plus UpdateStatus(queued / pending) by the acceptor
(handlers.go CreateJob), CancelJob by the acceptor (handlers.go CancelJob),
StartProcessing / CompleteJob(retention 1) / FailJob by the worker
(cmd/worker/main.go processJob), and DeleteJob by the sweeper.  UpdateProgress
is defined in jobs.go but has no call site anywhere in the repository, so it
contributes no step.
-/

/-- jobs.go UpdateProgress: `UPDATE jobs SET progress = $1 WHERE id = $2`.
Defined by the repository but never invoked by any component. -/
def updateProgress (s : Store) (id : Nat) (progress : Int) : Store × Option String :=
  ((updateWhere (fun r => decide (r.id = id)) (fun r => { r with progress := progress }) s).1,
   none)

/-- One mutation of the jobs table by some component of the system.  The
create step carries the primary-key constraint of the schema (id is unique). -/
inductive Step : Store → Store → Prop where
  | createStep (s : Store) (id userId : Nat) (key name ct : String) (size : Int)
      (ops : List Operation) (now : Time) (hfresh : ∀ r ∈ s, r.id ≠ id) :
      Step s (s ++ [mkNewRow id userId key name ct size ops now])
  | updateStatusStep (s : Store) (id : Nat) (st : JobStatus)
      (hst : st = JobStatus.queued ∨ st = JobStatus.pending) :
      Step s (updateStatus s id st).1
  | startProcessingStep (s : Store) (now : Time) (id : Nat) (w : String) :
      Step s (startProcessing s now id w).1
  | completeJobStep (s : Store) (now : Time) (id : Nat) (key : String) :
      Step s (completeJob s now id key 1).1
  | failJobStep (s : Store) (now : Time) (id : Nat) (msg : String) :
      Step s (failJob s now id msg).1
  | cancelJobStep (s : Store) (id : Nat) : Step s (cancelJob s id).1
  | deleteJobStep (s : Store) (id : Nat) : Step s (deleteJob s id).1

/-- Stores reachable from the empty table through component mutations. -/
inductive Reachable : Store → Prop where
  | base : Reachable []
  | step {s t : Store} : Reachable s → Step s t → Reachable t

/-!
Helper lemmas about the SQL-statement combinators and the sort.
-/

theorem mem_updateWhere {p : JobRow → Bool} {f : JobRow → JobRow} {s : Store} {r2 : JobRow} :
    r2 ∈ (updateWhere p f s).1 ↔ ∃ r ∈ s, (if p r then f r else r) = r2 := by
  simp [updateWhere, List.mem_map]

theorem updateWhere_count_zero {p : JobRow → Bool} {f : JobRow → JobRow} {s : Store} :
    (updateWhere p f s).2 = 0 ↔ ∀ r ∈ s, ¬ p r = true := by
  simp [updateWhere, List.length_eq_zero, List.filter_eq_nil_iff]

theorem updateWhere_nomatch {p : JobRow → Bool} {f : JobRow → JobRow} {s : Store}
    (h : ∀ r ∈ s, ¬ p r = true) : (updateWhere p f s).1 = s := by
  induction s with
  | nil => rfl
  | cons a t ih =>
    have ha := h a (by simp)
    have ht : ∀ r ∈ t, ¬ p r = true := fun r hr => h r (by simp [hr])
    simp only [updateWhere, List.map_cons] at *
    rw [if_neg ha]
    have := ih ht
    simp only [updateWhere] at this
    rw [this]

theorem find?_updateWhere (p : JobRow → Bool) (f : JobRow → JobRow)
    (hf : ∀ r, p (f r) = p r) (s : Store) :
    (updateWhere p f s).1.find? p = (s.find? p).map f := by
  induction s with
  | nil => rfl
  | cons a t ih =>
    simp only [updateWhere, List.map_cons]
    by_cases h : p a = true
    · rw [if_pos h]
      rw [List.find?_cons_of_pos _ (by rw [hf]; exact h),
          List.find?_cons_of_pos _ h]
      rfl
    · rw [if_neg h]
      rw [List.find?_cons_of_neg _ h, List.find?_cons_of_neg _ h]
      exact ih

theorem mem_insortJob {j x : JobRow} {l : List JobRow} :
    x ∈ insortJob j l ↔ x = j ∨ x ∈ l := by
  induction l with
  | nil => simp [insortJob]
  | cons a t ih =>
    by_cases h : deleteAtKey j ≤ deleteAtKey a
    · simp [insortJob, if_pos h]
    · simp [insortJob, if_neg h, ih]
      tauto

theorem length_insortJob (j : JobRow) (l : List JobRow) :
    (insortJob j l).length = l.length + 1 := by
  induction l with
  | nil => rfl
  | cons a t ih =>
    by_cases h : deleteAtKey j ≤ deleteAtKey a
    · simp [insortJob, if_pos h]
    · simp [insortJob, if_neg h, ih]

theorem mem_sortByDeleteAt {x : JobRow} {l : List JobRow} :
    x ∈ sortByDeleteAt l ↔ x ∈ l := by
  induction l with
  | nil => simp [sortByDeleteAt]
  | cons a t ih => simp [sortByDeleteAt, mem_insortJob, ih]

theorem length_sortByDeleteAt (l : List JobRow) :
    (sortByDeleteAt l).length = l.length := by
  induction l with
  | nil => rfl
  | cons a t ih => simp [sortByDeleteAt, length_insortJob, ih]

theorem sorted_insortJob {j : JobRow} {l : List JobRow}
    (h : List.Pairwise (fun a b => deleteAtKey a ≤ deleteAtKey b) l) :
    List.Pairwise (fun a b => deleteAtKey a ≤ deleteAtKey b) (insortJob j l) := by
  induction l with
  | nil => simp [insortJob]
  | cons a t ih =>
    rcases List.pairwise_cons.mp h with ⟨ha, ht⟩
    by_cases hle : deleteAtKey j ≤ deleteAtKey a
    · rw [insortJob, if_pos hle]
      refine List.pairwise_cons.mpr ⟨?_, h⟩
      intro x hx
      rcases List.mem_cons.mp hx with rfl | hx
      · exact hle
      · exact le_trans hle (ha x hx)
    · rw [insortJob, if_neg hle]
      refine List.pairwise_cons.mpr ⟨?_, ih ht⟩
      intro x hx
      rcases mem_insortJob.mp hx with rfl | hx
      · exact le_of_lt (lt_of_not_le hle)
      · exact ha x hx

theorem sorted_sortByDeleteAt (l : List JobRow) :
    List.Pairwise (fun a b => deleteAtKey a ≤ deleteAtKey b) (sortByDeleteAt l) := by
  induction l with
  | nil => simp [sortByDeleteAt]
  | cons a t ih => exact sorted_insortJob ih

/-!
Helper lemmas about the sweeper cycle.
-/

theorem storageDelete_subset {env : CleanupEnv} {blobs : List String} {k x : String}
    (h : x ∈ storageDelete env blobs k) : x ∈ blobs := by
  unfold storageDelete at h
  by_cases hf : env.blobFail k = true
  · rwa [if_pos hf] at h
  · rw [if_neg hf] at h
    exact (List.mem_filter.mp h).1

theorem storageDelete_removes {env : CleanupEnv} {blobs : List String} {k : String}
    (h : env.blobFail k = false) : k ∉ storageDelete env blobs k := by
  unfold storageDelete
  rw [if_neg (by simp [h])]
  intro hmem
  have := (List.mem_filter.mp hmem).2
  simp at this

theorem blobs_cleanupJob_subset {env : CleanupEnv} {blobs : List String} {s : Store}
    {j : JobRow} {k : String} (h : k ∈ (cleanupJob env blobs s j).1) : k ∈ blobs := by
  unfold cleanupJob at h
  dsimp only at h
  by_cases h2 : j.processedKey.getD "" = ""
  · rw [if_pos h2] at h
    by_cases h1 : j.originalKey = ""
    · rwa [if_pos h1] at h
    · rw [if_neg h1] at h
      exact storageDelete_subset h
  · rw [if_neg h2] at h
    have h3 := storageDelete_subset h
    by_cases h1 : j.originalKey = ""
    · rwa [if_pos h1] at h3
    · rw [if_neg h1] at h3
      exact storageDelete_subset h3

theorem store_cleanupJob_subset {env : CleanupEnv} {blobs : List String} {s : Store}
    {j : JobRow} {r : JobRow} (h : r ∈ (cleanupJob env blobs s j).2.1) : r ∈ s := by
  unfold cleanupJob deleteJob deleteWhere at h
  exact (List.mem_filter.mp h).1

theorem store_cleanupJob_id {env : CleanupEnv} {blobs : List String} {s : Store}
    {j : JobRow} {r : JobRow} (h : r ∈ (cleanupJob env blobs s j).2.1) : r.id ≠ j.id := by
  unfold cleanupJob deleteJob deleteWhere at h
  have := (List.mem_filter.mp h).2
  simpa using this

theorem cleanupJob_removes_original {env : CleanupEnv} {blobs : List String} {s : Store}
    {j : JobRow} (hk : j.originalKey ≠ "") (hfail : env.blobFail j.originalKey = false) :
    j.originalKey ∉ (cleanupJob env blobs s j).1 := by
  unfold cleanupJob
  dsimp only
  rw [if_neg hk]
  by_cases h2 : j.processedKey.getD "" = ""
  · rw [if_pos h2]
    exact storageDelete_removes hfail
  · rw [if_neg h2]
    intro hmem
    exact storageDelete_removes hfail (storageDelete_subset hmem)

theorem blobs_runCleanupList_subset (env : CleanupEnv) (L : List JobRow) :
    ∀ {blobs : List String} {s : Store} {k : String},
      k ∈ (runCleanupList env L blobs s).1 → k ∈ blobs := by
  induction L with
  | nil => intro blobs s k h; exact h
  | cons j t ih =>
    intro blobs s k h
    rw [runCleanupList] at h
    exact blobs_cleanupJob_subset (ih h)

theorem store_runCleanupList_subset (env : CleanupEnv) (L : List JobRow) :
    ∀ {blobs : List String} {s : Store} {r : JobRow},
      r ∈ (runCleanupList env L blobs s).2 → r ∈ s := by
  induction L with
  | nil => intro blobs s r h; exact h
  | cons j t ih =>
    intro blobs s r h
    rw [runCleanupList] at h
    exact store_cleanupJob_subset (ih h)

theorem runCleanupList_removes_ids (env : CleanupEnv) (L : List JobRow) :
    ∀ {blobs : List String} {s : Store}, ∀ j ∈ L,
      ∀ r ∈ (runCleanupList env L blobs s).2, r.id ≠ j.id := by
  induction L with
  | nil => intro blobs s j hj; exact absurd hj (List.not_mem_nil j)
  | cons j0 t ih =>
    intro blobs s j hj r hr
    rw [runCleanupList] at hr
    rcases List.mem_cons.mp hj with rfl | hjt
    · exact store_cleanupJob_id (store_runCleanupList_subset env t hr)
    · exact ih j hjt r hr

theorem runCleanupList_removes_original (env : CleanupEnv) (L : List JobRow) :
    ∀ {blobs : List String} {s : Store}, ∀ j ∈ L,
      j.originalKey ≠ "" → env.blobFail j.originalKey = false →
      j.originalKey ∉ (runCleanupList env L blobs s).1 := by
  induction L with
  | nil => intro blobs s j hj; exact absurd hj (List.not_mem_nil j)
  | cons j0 t ih =>
    intro blobs s j hj hk hfail hmem
    rw [runCleanupList] at hmem
    rcases List.mem_cons.mp hj with rfl | hjt
    · exact cleanupJob_removes_original hk hfail (blobs_runCleanupList_subset env t hmem)
    · exact ih j hjt hk hfail hmem

theorem cleanupJob_removes_processed {env : CleanupEnv} {blobs : List String} {s : Store}
    {j : JobRow} (hk : j.processedKey.getD "" ≠ "")
    (hfail : env.blobFail (j.processedKey.getD "") = false) :
    j.processedKey.getD "" ∉ (cleanupJob env blobs s j).1 := by
  unfold cleanupJob
  dsimp only
  rw [if_neg hk]
  exact storageDelete_removes hfail

theorem runCleanupList_removes_processed (env : CleanupEnv) (L : List JobRow) :
    ∀ {blobs : List String} {s : Store}, ∀ j ∈ L,
      j.processedKey.getD "" ≠ "" → env.blobFail (j.processedKey.getD "") = false →
      j.processedKey.getD "" ∉ (runCleanupList env L blobs s).1 := by
  induction L with
  | nil => intro blobs s j hj; exact absurd hj (List.not_mem_nil j)
  | cons j0 t ih =>
    intro blobs s j hj hk hfail hmem
    rw [runCleanupList] at hmem
    rcases List.mem_cons.mp hj with rfl | hjt
    · exact cleanupJob_removes_processed hk hfail (blobs_runCleanupList_subset env t hmem)
    · exact ih j hjt hk hfail hmem

/-!
Concrete fixtures used by counterexamples and witnesses.
-/

/-- A terminal (COMPLETED) job row. -/
def doneRow : JobRow :=
  { id := 1, status := JobStatus.completed, originalKey := "users/7/original/1/a.jpg",
    processedKey := some "processed/1/a.jpg", originalName := "a.jpg",
    contentType := "image/jpeg", fileSize := 10, operations := [],
    error := none, progress := 100, workerId := some "worker-aaaa",
    userId := 7, createdAt := 0, updatedAt := 0, startedAt := some 1,
    completedAt := some 2, processingTimeMs := some 1, deleteAt := some 3600002 }

/-- A PROCESSING job row with no delete_at. -/
def procRow : JobRow :=
  { id := 2, status := JobStatus.processing, originalKey := "users/7/original/2/b.jpg",
    processedKey := none, originalName := "b.jpg", contentType := "image/jpeg",
    fileSize := 5, operations := [], error := none, progress := 0,
    workerId := some "worker-aaaa", userId := 7, createdAt := 0, updatedAt := 0,
    startedAt := some 5, completedAt := none, processingTimeMs := none,
    deleteAt := none }

/-- A QUEUED job row. -/
def queuedRow : JobRow :=
  { id := 3, status := JobStatus.queued, originalKey := "users/7/original/3/c.jpg",
    processedKey := none, originalName := "c.jpg", contentType := "image/jpeg",
    fileSize := 5, operations := [], error := none, progress := 0,
    workerId := none, userId := 7, createdAt := 0, updatedAt := 0,
    startedAt := none, completedAt := none, processingTimeMs := none,
    deleteAt := none }

/-- C1, counterexample.  The claim says start_processing succeeds only when the
row is QUEUED, the guard sitting in the WHERE clause of the UPDATE, and that for a
terminal row the call fails with no row changed.  On a store holding one
COMPLETED row, StartProcessing in the code reports success and rewrites that
terminal row to PROCESSING: there is no status guard in the WHERE clause. -/
theorem start_processing_no_guard_cex :
    (startProcessing [doneRow] 10 1 "worker-bbbb").2 = none ∧
    ((startProcessing [doneRow] 10 1 "worker-bbbb").1.find?
      (fun r => decide (r.id = 1))).map (fun r => r.status) = some JobStatus.processing := by
  decide

/-- C1 (amended): start_processing(id, worker_id) is an unconditional UPDATE
whose WHERE clause matches on id only: it always reports success, it rewrites
every row with the given id — whatever its current status, terminal included —
to PROCESSING with worker_id and started_at set, it leaves other rows
untouched, and when no row has the id it succeeds while changing nothing. -/
theorem start_processing_unconditional (s : Store) (now : Time) (id : Nat) (w : String) :
    (startProcessing s now id w).2 = none ∧
    (∀ r ∈ s, r.id = id →
      { r with status := JobStatus.processing, workerId := some w,
               startedAt := some now } ∈ (startProcessing s now id w).1) ∧
    (∀ r ∈ s, r.id ≠ id → r ∈ (startProcessing s now id w).1) ∧
    ((∀ r ∈ s, r.id ≠ id) → (startProcessing s now id w).1 = s) := by
  refine ⟨rfl, ?_, ?_, ?_⟩
  · intro r hr hid
    unfold startProcessing
    exact mem_updateWhere.mpr ⟨r, hr, by rw [if_pos (by simpa using hid)]⟩
  · intro r hr hid
    unfold startProcessing
    exact mem_updateWhere.mpr ⟨r, hr, by rw [if_neg (by simpa using hid)]⟩
  · intro h
    unfold startProcessing
    exact updateWhere_nomatch (fun r hr => by simpa using h r hr)

theorem start_processing_unconditional_witness :
    { doneRow with
      status := JobStatus.processing,
      workerId := some "worker-bbbb",
      startedAt := some (10 : Time) } ∈ (startProcessing [doneRow] 10 1 "worker-bbbb").1 :=
  (start_processing_unconditional [doneRow] 10 1 "worker-bbbb").2.1 doneRow
    (by simp) rfl

/-- C4, counterexample.  The claim says fail(id, reason) sets delete_at the way
the COMPLETED transition does.  Failing a PROCESSING row whose delete_at is
null leaves delete_at null: the SET list of FailJob only touches status, error and
completed_at. -/
theorem fail_job_no_delete_at_cex :
    ((failJob [procRow] 100 2 "boom").1.find? (fun r => decide (r.id = 2))) =
      some { procRow with
             status := JobStatus.failed,
             error := some "boom",
             completedAt := some 100 } ∧
    (((failJob [procRow] 100 2 "boom").1.find?
      (fun r => decide (r.id = 2))).map (fun r => r.deleteAt)) = some none := by
  decide

/-- A row selected by the sweeper is expired and comes from the table. -/
theorem mem_getJobsToCleanup {s : Store} {now : Time} {limit : Nat} {j : JobRow}
    (h : j ∈ getJobsToCleanup s now limit) : j ∈ s ∧ expiredAt now j = true := by
  unfold getJobsToCleanup at h
  have h2 := mem_sortByDeleteAt.mp (List.mem_of_mem_take h)
  exact ⟨(List.mem_filter.mp h2).1, (List.mem_filter.mp h2).2⟩

/-- C4 (amended): fail(id, reason) sets status=FAILED, error=reason and
completed_at=now on the row, succeeds unconditionally, and leaves delete_at
exactly as it was; in particular a failed row whose delete_at was null is
never selected by the sweeper afterwards, at any time and batch size. -/
theorem fail_job_leaves_delete_at (s : Store) (now : Time) (id : Nat) (reason : String) :
    (failJob s now id reason).2 = none ∧
    (∀ r ∈ s, r.id = id →
      { r with status := JobStatus.failed, error := some reason,
               completedAt := some now } ∈ (failJob s now id reason).1) ∧
    (∀ r ∈ s, r.id ≠ id → r ∈ (failJob s now id reason).1) ∧
    (∀ r ∈ s, r.id = id → r.deleteAt = none → ∀ now2 : Time, ∀ limit : Nat,
      { r with status := JobStatus.failed, error := some reason,
               completedAt := some now } ∉
        getJobsToCleanup (failJob s now id reason).1 now2 limit) := by
  refine ⟨rfl, ?_, ?_, ?_⟩
  · intro r hr hid
    unfold failJob
    exact mem_updateWhere.mpr ⟨r, hr, by rw [if_pos (by simpa using hid)]⟩
  · intro r hr hid
    unfold failJob
    exact mem_updateWhere.mpr ⟨r, hr, by rw [if_neg (by simpa using hid)]⟩
  · intro r hr hid hda now2 limit hmem
    have hexp := (mem_getJobsToCleanup hmem).2
    unfold expiredAt at hexp
    simp only at hexp
    rw [hda] at hexp
    exact Bool.false_ne_true hexp

theorem fail_job_leaves_delete_at_witness :
    { procRow with
      status := JobStatus.failed,
      error := some "boom",
      completedAt := some (100 : Time) } ∈ (failJob [procRow] 100 2 "boom").1 :=
  (fail_job_leaves_delete_at [procRow] 100 2 "boom").2.1 procRow (by simp) rfl

/-- The WHERE clause of CancelJob: `id = $2 AND status IN (pending, queued)`. -/
def cancelPred (id : Nat) : JobRow → Bool := fun r =>
  decide (r.id = id) &&
    (decide (r.status = JobStatus.pending) || decide (r.status = JobStatus.queued))

theorem cancelJob_fst (s : Store) (id : Nat) :
    (cancelJob s id).1 =
      (updateWhere (cancelPred id) (fun r => { r with status := JobStatus.cancelled }) s).1 :=
  rfl

theorem cancelJob_snd (s : Store) (id : Nat) :
    (cancelJob s id).2 =
      if (updateWhere (cancelPred id) (fun r => { r with status := JobStatus.cancelled }) s).2 = 0
      then some "job cannot be canceled (already processing or completed)" else none :=
  rfl

theorem cancelJob_count_zero_iff (s : Store) (id : Nat) :
    ((updateWhere (cancelPred id) (fun r => { r with status := JobStatus.cancelled }) s).2 = 0) ↔
    ¬ ∃ r ∈ s, r.id = id ∧ (r.status = JobStatus.pending ∨ r.status = JobStatus.queued) := by
  rw [updateWhere_count_zero]
  constructor
  · rintro h ⟨r, hr, hid, hst⟩
    exact (h r hr) (by simp [cancelPred, hid, hst])
  · intro h r hr hp
    exact h ⟨r, hr, by simpa [cancelPred] using hp⟩

/-- C5: cancel(id) succeeds exactly when a row with that id is PENDING or
QUEUED; the check-and-set lives in the WHERE clause of the single conditional UPDATE
(cancelPred).  On success the matching row becomes CANCELLED and every
other row is untouched; on any other status — PROCESSING and terminal states
included — the call returns the not-cancellable error and the table is
unchanged. -/
theorem cancel_job_conditional (s : Store) (id : Nat) :
    ((cancelJob s id).2 = none ↔
      ∃ r ∈ s, r.id = id ∧ (r.status = JobStatus.pending ∨ r.status = JobStatus.queued)) ∧
    ((cancelJob s id).2 ≠ none →
      (cancelJob s id).1 = s ∧
      (cancelJob s id).2 = some "job cannot be canceled (already processing or completed)") ∧
    (∀ r ∈ s, r.id = id → (r.status = JobStatus.pending ∨ r.status = JobStatus.queued) →
      { r with status := JobStatus.cancelled } ∈ (cancelJob s id).1) ∧
    (∀ r ∈ s, ¬(r.id = id ∧ (r.status = JobStatus.pending ∨ r.status = JobStatus.queued)) →
      r ∈ (cancelJob s id).1) := by
  refine ⟨?_, ?_, ?_, ?_⟩
  · rw [cancelJob_snd]
    by_cases h0 : (updateWhere (cancelPred id)
        (fun r => { r with status := JobStatus.cancelled }) s).2 = 0
    · rw [if_pos h0]
      simp only [reduceCtorEq, false_iff]
      exact (cancelJob_count_zero_iff s id).mp h0
    · rw [if_neg h0]
      simp only [true_iff]
      have := (not_iff_not.mpr (cancelJob_count_zero_iff s id)).mp h0
      exact not_not.mp this
  · intro hne
    rw [cancelJob_snd] at hne ⊢
    by_cases h0 : (updateWhere (cancelPred id)
        (fun r => { r with status := JobStatus.cancelled }) s).2 = 0
    · rw [if_pos h0]
      refine ⟨?_, rfl⟩
      rw [cancelJob_fst]
      exact updateWhere_nomatch ((updateWhere_count_zero).mp h0)
    · rw [if_neg h0] at hne
      exact absurd rfl hne
  · intro r hr hid hst
    rw [cancelJob_fst]
    exact mem_updateWhere.mpr ⟨r, hr, by rw [if_pos (by simp [cancelPred, hid, hst])]⟩
  · intro r hr hnot
    rw [cancelJob_fst]
    exact mem_updateWhere.mpr ⟨r, hr, by rw [if_neg (by simpa [cancelPred] using hnot)]⟩

theorem cancel_job_conditional_witness :
    { queuedRow with status := JobStatus.cancelled } ∈ (cancelJob [queuedRow] 3).1 :=
  (cancel_job_conditional [queuedRow] 3).2.2.1 queuedRow (by simp) rfl (Or.inr rfl)

/-- C2 (documenting the divergence): for an id with no row in the store, GET
/api/v1/jobs/{id} answers 500 — GetByID reports the missing row as ErrNotFound,
the handler treats every non-nil error as internal, and its nil-job 404 branch
is unreachable — and DELETE /api/v1/jobs/{id} answers 400 with the
generic not-cancellable error of CancelJob.  Neither is the 404 the spec requires. -/
theorem unknown_job_id_get_500_delete_400 (s : Store) (id : Nat)
    (h : ∀ r ∈ s, r.id ≠ id) :
    getJobHandler s id = ⟨500, HttpBody.errMsg "failed to get job"⟩ ∧
    (cancelJobHandler s id).1 =
      ⟨400, HttpBody.errMsg "job cannot be canceled (already processing or completed)"⟩ ∧
    (cancelJobHandler s id).2 = s ∧
    (getJobHandler s id).status ≠ 404 ∧
    (cancelJobHandler s id).1.status ≠ 404 := by
  have hfind : s.find? (fun r => decide (r.id = id)) = none :=
    List.find?_eq_none.mpr (fun r hr => by simpa using h r hr)
  have hget : getJobHandler s id = ⟨500, HttpBody.errMsg "failed to get job"⟩ := by
    unfold getJobHandler getByID
    rw [hfind]
    rfl
  have h0 : (updateWhere (cancelPred id)
      (fun r => { r with status := JobStatus.cancelled }) s).2 = 0 := by
    apply (cancelJob_count_zero_iff s id).mpr
    rintro ⟨r, hr, hid, _⟩
    exact h r hr hid
  have hcj : cancelJob s id =
      (s, some "job cannot be canceled (already processing or completed)") := by
    have h1 : (cancelJob s id).1 = s := by
      rw [cancelJob_fst]
      exact updateWhere_nomatch ((updateWhere_count_zero).mp h0)
    have h2 : (cancelJob s id).2 =
        some "job cannot be canceled (already processing or completed)" := by
      rw [cancelJob_snd, if_pos h0]
    exact Prod.ext h1 h2
  have hcancel : cancelJobHandler s id =
      (⟨400, HttpBody.errMsg "job cannot be canceled (already processing or completed)"⟩, s) := by
    unfold cancelJobHandler
    rw [hcj]
  refine ⟨hget, ?_, ?_, ?_, ?_⟩
  · rw [hcancel]
  · rw [hcancel]
  · rw [hget]; decide
  · rw [hcancel]
    exact (by decide : (400 : Nat) ≠ 404)

theorem unknown_job_id_get_500_delete_400_witness :
    getJobHandler [] 1 = ⟨500, HttpBody.errMsg "failed to get job"⟩ :=
  (unknown_job_id_get_500_delete_400 [] 1 (by simp)).1

/-- C6: complete(id, processed_key, retention_hours) on an existing row
succeeds and rewrites the row to COMPLETED with progress 100, the given
non-empty processed key, completed_at = now, processing_time_ms =
now − started_at whenever started_at is set, and delete_at = now plus the
retention window; with retention_hours ≥ 1 the resulting delete_at is strictly
after completed_at. -/
theorem complete_job_sets_fields (s : Store) (now : Time) (id : Nat) (key : String)
    (ret : Int) (row : JobRow)
    (hfind : s.find? (fun r => decide (r.id = id)) = some row)
    (hret : 1 ≤ ret) (hkey : key ≠ "") :
    (completeJob s now id key ret).2 = none ∧
    (completeJob s now id key ret).1.find? (fun r => decide (r.id = id)) =
      some { row with
             status := JobStatus.completed,
             processedKey := some key,
             progress := 100,
             completedAt := some now,
             processingTimeMs := some (match row.startedAt with
               | some t => now - t
               | none => 0),
             deleteAt := some (now + ret * 3600000) } ∧
    (∀ t0 : Time, row.startedAt = some t0 →
      (match row.startedAt with | some t => now - t | none => 0) = now - t0) ∧
    now < now + ret * 3600000 ∧
    (some key : Option String) ≠ some "" := by
  refine ⟨?_, ?_, ?_, ?_, by simpa using hkey⟩
  · unfold completeJob
    rw [hfind]
  · unfold completeJob
    rw [hfind]
    dsimp only
    rw [find?_updateWhere (fun r => decide (r.id = id))
          (fun r => { r with
                      status := JobStatus.completed,
                      processedKey := some key,
                      progress := 100,
                      completedAt := some now,
                      processingTimeMs := some (match row.startedAt with
                        | some t => now - t
                        | none => 0),
                      deleteAt := some (now + ret * 3600000) })
          (fun r => rfl) s, hfind]
    rfl
  · intro t0 ht0
    rw [ht0]
  · have h1 : (0 : Int) < ret := lt_of_lt_of_le zero_lt_one hret
    have h2 : (0 : Int) < ret * 3600000 := by positivity
    linarith

theorem complete_job_sets_fields_witness :
    (completeJob [procRow] 10 2 "processed/2/b.jpg" 1).2 = none :=
  (complete_job_sets_fields [procRow] 10 2 "processed/2/b.jpg" 1 procRow rfl
    (by decide) (by decide)).1

/-- C7: when a decoded operations list contains a name outside the fixed valid
set, CreateJob answers 400 with body error "invalid operation: name" (naming
the first invalid operation the loop meets), and returns with the job table,
the blob store and the queue exactly as they were: validation precedes the
upload, the insert and the enqueue, so no effect has happened. -/
theorem invalid_operation_rejected (env : AcceptorEnv) (now : Time) (userId newId : Nat)
    (req : CreateReq) (st : SysState) (ops : List Operation) (op0 : Operation)
    (hparse : req.parseOk = true) (himg : req.hasImage = true)
    (hct : isValidImageType req.contentTypeHeader = true)
    (hops : req.opsField = OpsField.parsed ops)
    (hbad : ops.find? (fun op => !isValidOperation op.operation) = some op0) :
    createJob env now userId newId req st =
      (⟨400, HttpBody.errMsg ("invalid operation: " ++ op0.operation)⟩, st, []) ∧
    op0 ∈ ops ∧ isValidOperation op0.operation = false := by
  refine ⟨?_, List.mem_of_find?_eq_some hbad, by simpa using List.find?_some hbad⟩
  simp [createJob, hparse, himg, hct, hops, hbad]

theorem invalid_operation_rejected_witness :
    createJob ⟨true, true⟩ 0 7 1
      ⟨true, true, "image/jpeg", "a.jpg", 10, OpsField.parsed [⟨"crop", []⟩]⟩
      ⟨[], [], []⟩ =
      (⟨400, HttpBody.errMsg "invalid operation: crop"⟩, ⟨[], [], []⟩, []) :=
  (invalid_operation_rejected ⟨true, true⟩ 0 7 1
    ⟨true, true, "image/jpeg", "a.jpg", 10, OpsField.parsed [⟨"crop", []⟩]⟩
    ⟨[], [], []⟩ [⟨"crop", []⟩] ⟨"crop", []⟩
    rfl rfl (by simp [isValidImageType]) rfl (by decide)).1

theorem updateStatus_fst (s : Store) (id : Nat) (st : JobStatus) :
    (updateStatus s id st).1 =
      (updateWhere (fun r => decide (r.id = id)) (fun r => { r with status := st }) s).1 :=
  rfl

/-- After insert, update-to-QUEUED and revert-to-PENDING, the fresh row reads
PENDING. -/
theorem find?_status_after_two_updates (s0 : Store) (row : JobRow) (newId : Nat)
    (hrow : row.id = newId) (hfresh : ∀ r ∈ s0, r.id ≠ newId) :
    (((updateStatus (updateStatus (s0 ++ [row]) newId JobStatus.queued).1 newId
        JobStatus.pending).1.find? (fun r => decide (r.id = newId))).map
      (fun r => r.status)) = some JobStatus.pending := by
  have hfind0 : s0.find? (fun r => decide (r.id = newId)) = none :=
    List.find?_eq_none.mpr (fun r hr => by simpa using hfresh r hr)
  have h1 : (s0 ++ [row]).find? (fun r => decide (r.id = newId)) = some row := by
    rw [List.find?_append, hfind0]
    simp [hrow]
  have h2 : (updateStatus (s0 ++ [row]) newId JobStatus.queued).1.find?
      (fun r => decide (r.id = newId)) = some { row with status := JobStatus.queued } := by
    rw [updateStatus_fst,
        find?_updateWhere (fun r => decide (r.id = newId))
          (fun r => { r with status := JobStatus.queued }) (fun r => rfl), h1]
    rfl
  have h3 : (updateStatus (updateStatus (s0 ++ [row]) newId JobStatus.queued).1 newId
      JobStatus.pending).1.find? (fun r => decide (r.id = newId)) =
      some { row with status := JobStatus.pending } := by
    rw [updateStatus_fst,
        find?_updateWhere (fun r => decide (r.id = newId))
          (fun r => { r with status := JobStatus.pending }) (fun r => rfl), h2]
    rfl
  rw [h3]
  rfl

/-- C3, counterexample.  The claim says QUEUED is persisted only after the
enqueue succeeds.  In a run whose enqueue fails, the trace contains the
persist-QUEUED effect even though no successful enqueue occurs at all: the
code updates the row to QUEUED before calling Enqueue. -/
theorem queued_persisted_before_enqueue_cex :
    Event.setStatus 1 JobStatus.queued ∈
      (createJob ⟨true, false⟩ 0 7 1
        ⟨true, true, "image/jpeg", "a.jpg", 10,
         OpsField.parsed [⟨"resize", [("width", "800")]⟩]⟩ ⟨[], [], []⟩).2.2 ∧
    Event.enqueuedMsg 1 ∉
      (createJob ⟨true, false⟩ 0 7 1
        ⟨true, true, "image/jpeg", "a.jpg", 10,
         OpsField.parsed [⟨"resize", [("width", "800")]⟩]⟩ ⟨[], [], []⟩).2.2 := by
  constructor
  · simp [createJob, isValidImageType, isValidOperation]
  · simp [createJob, isValidImageType, isValidOperation]

/-- C3 (amended): the acceptor persists QUEUED immediately after inserting the
row and before attempting the enqueue; when the enqueue fails it reverts the
row to PENDING and answers 500 with "failed to queue job", leaving the queue
untouched.  The trace fixes the order: insert, set QUEUED, enqueue failure,
set PENDING. -/
theorem enqueue_failure_reverts_to_pending (env : AcceptorEnv) (now : Time)
    (userId newId : Nat) (req : CreateReq) (st : SysState) (ops : List Operation)
    (hparse : req.parseOk = true) (himg : req.hasImage = true)
    (hct : isValidImageType req.contentTypeHeader = true)
    (hops : req.opsField = OpsField.parsed ops)
    (hvalid : ops.find? (fun op => !isValidOperation op.operation) = none)
    (hup : env.uploadOk = true) (henq : env.enqueueOk = false)
    (hfresh : ∀ r ∈ st.store, r.id ≠ newId) :
    (createJob env now userId newId req st).1 =
      ⟨500, HttpBody.errMsg "failed to queue job"⟩ ∧
    (((createJob env now userId newId req st).2.1.store.find?
        (fun r => decide (r.id = newId))).map (fun r => r.status)) =
      some JobStatus.pending ∧
    (createJob env now userId newId req st).2.1.queue = st.queue ∧
    (createJob env now userId newId req st).2.2 =
      [Event.uploadedBlob
        ("users/" ++ toString userId ++ "/original/" ++ toString newId ++ "/" ++ req.filename),
       Event.insertedRow newId,
       Event.setStatus newId JobStatus.queued,
       Event.enqueueFailed newId,
       Event.setStatus newId JobStatus.pending] := by
  refine ⟨?_, ?_, ?_, ?_⟩
  · simp [createJob, hparse, himg, hct, hops, hvalid, hup, henq]
  · simp only [createJob, hparse, himg, hct, hops, hvalid, hup, henq, Bool.not_true,
      Bool.not_false, if_true, if_false, ite_true, ite_false, Bool.false_eq_true,
      reduceIte]
    exact find?_status_after_two_updates st.store
      (mkNewRow newId userId
        ("users/" ++ toString userId ++ "/original/" ++ toString newId ++ "/" ++ req.filename)
        req.filename req.contentTypeHeader req.size
        (if ops.isEmpty then [defaultThumbnail] else ops) now)
      newId rfl hfresh
  · simp [createJob, hparse, himg, hct, hops, hvalid, hup, henq]
  · simp [createJob, hparse, himg, hct, hops, hvalid, hup, henq]

theorem enqueue_failure_reverts_to_pending_witness :
    (createJob ⟨true, false⟩ 0 7 1
      ⟨true, true, "image/jpeg", "a.jpg", 10,
       OpsField.parsed [⟨"resize", [("width", "800")]⟩]⟩ ⟨[], [], []⟩).1 =
      ⟨500, HttpBody.errMsg "failed to queue job"⟩ :=
  (enqueue_failure_reverts_to_pending ⟨true, false⟩ 0 7 1
    ⟨true, true, "image/jpeg", "a.jpg", 10,
     OpsField.parsed [⟨"resize", [("width", "800")]⟩]⟩ ⟨[], [], []⟩
    [⟨"resize", [("width", "800")]⟩]
    rfl rfl (by simp [isValidImageType]) rfl (by decide) rfl rfl (by simp)).1

/-- C8: Consume is a two-phase read.  With healthy transport it first serves
its own pending (read-but-unacked) entries without blocking or
touching the fresh stream; only with no pending entry does it do the blocking
read, and it returns no message with no error exactly when that blocking read
times out (no fresh entry arrives in the poll window); a transport failure
surfaces as an error.  A delivered fresh entry joins the pending
list of this consumer. -/
theorem consume_two_phase (decode : String → Option JobMessage) (st : RedisState) :
    (st.ok = false →
      (consume decode st).1 = Except.error "failed to read pending messages" ∧
      (consume decode st).2 = st) ∧
    (st.ok = true → ∀ m t, st.pending = m :: t →
      (consume decode st).1 = (parseMessage decode m).map some ∧
      (consume decode st).2 = st) ∧
    (st.ok = true → st.pending = [] →
      (((consume decode st).1 = Except.ok none) ↔ st.fresh = [])) ∧
    (st.ok = true → st.pending = [] → ∀ m rest, st.fresh = m :: rest →
      (consume decode st).1 = (parseMessage decode m).map some ∧
      (consume decode st).2 =
        { st with pending := st.pending ++ [m], fresh := rest }) := by
  refine ⟨?_, ?_, ?_, ?_⟩
  · intro hok
    unfold consume
    rw [hok]
    exact ⟨rfl, rfl⟩
  · intro hok m t hpend
    unfold consume
    rw [hok, hpend]
    exact ⟨rfl, rfl⟩
  · intro hok hpend
    unfold consume
    rw [hok, hpend]
    cases hfresh : st.fresh with
    | nil => simp
    | cons m rest =>
      simp only [Bool.not_true, Bool.false_eq_true, if_false]
      constructor
      · intro h
        exfalso
        cases hparse : parseMessage decode m with
        | error e => rw [hparse] at h; exact Except.noConfusion h
        | ok msg =>
          rw [hparse] at h
          have : (some msg : Option Message) = none := Except.ok.inj h
          exact Option.noConfusion this
      · intro h
        exact absurd (hfresh ▸ h) (List.cons_ne_nil m rest)
  · intro hok hpend m rest hfresh
    unfold consume
    rw [hok, hpend, hfresh]
    exact ⟨rfl, rfl⟩

theorem consume_two_phase_witness :
    (consume (fun _ => some ⟨1, []⟩) ⟨[], [], true⟩).1 = Except.ok none :=
  ((consume_two_phase (fun _ => some ⟨1, []⟩) ⟨[], [], true⟩).2.2.1 rfl rfl).mpr rfl

/-- C9: a sweeper cycle selects at most batch_size rows, all of them expired
(delete_at non-null and before now) and drawn from the table, in ascending
delete_at order — and exactly the expired rows whenever they fit the batch.
Every selected row is deleted from the table even when blob deletes fail
(they are logged and do not stop the cycle or the row delete), and a
successful best-effort delete removes the original blob — and the processed
blob whenever its key is non-empty — from the blob store. -/
theorem sweeper_cycle_spec (s : Store) (now : Time) (limit : Nat)
    (env : CleanupEnv) (blobs : List String) :
    (getJobsToCleanup s now limit).length ≤ limit ∧
    (∀ j ∈ getJobsToCleanup s now limit, j ∈ s ∧ expiredAt now j = true) ∧
    List.Pairwise (fun a b => deleteAtKey a ≤ deleteAtKey b) (getJobsToCleanup s now limit) ∧
    ((s.filter (expiredAt now)).length ≤ limit →
      ∀ j, j ∈ getJobsToCleanup s now limit ↔ j ∈ s ∧ expiredAt now j = true) ∧
    (∀ j ∈ getJobsToCleanup s now limit,
      ∀ r ∈ (cleanupCycle env blobs s now limit).2, r.id ≠ j.id) ∧
    (∀ j ∈ getJobsToCleanup s now limit,
      j.originalKey ≠ "" → env.blobFail j.originalKey = false →
      j.originalKey ∉ (cleanupCycle env blobs s now limit).1) ∧
    (∀ j ∈ getJobsToCleanup s now limit,
      j.processedKey.getD "" ≠ "" → env.blobFail (j.processedKey.getD "") = false →
      j.processedKey.getD "" ∉ (cleanupCycle env blobs s now limit).1) := by
  refine ⟨?_, fun j hj => mem_getJobsToCleanup hj, ?_, ?_, ?_, ?_, ?_⟩
  · unfold getJobsToCleanup
    exact List.length_take_le _ _
  · unfold getJobsToCleanup
    exact List.Pairwise.sublist (List.take_sublist _ _) (sorted_sortByDeleteAt _)
  · intro hlen j
    constructor
    · exact fun hj => mem_getJobsToCleanup hj
    · rintro ⟨hjs, hexp⟩
      unfold getJobsToCleanup
      have hmems : j ∈ sortByDeleteAt (s.filter (expiredAt now)) :=
        mem_sortByDeleteAt.mpr (List.mem_filter.mpr ⟨hjs, hexp⟩)
      rw [List.take_of_length_le]
      · exact hmems
      · rw [length_sortByDeleteAt]
        exact hlen
  · intro j hj r hr
    exact runCleanupList_removes_ids env (getJobsToCleanup s now limit) j hj r hr
  · intro j hj hk hf
    exact runCleanupList_removes_original env (getJobsToCleanup s now limit) j hj hk hf
  · intro j hj hk hf
    exact runCleanupList_removes_processed env (getJobsToCleanup s now limit) j hj hk hf

theorem sweeper_cycle_spec_witness :
    "users/7/original/1/a.jpg" ∉
      (cleanupCycle ⟨fun _ => false⟩ ["users/7/original/1/a.jpg", "processed/1/a.jpg"]
        [doneRow] 4000000 100).1 ∧
    "processed/1/a.jpg" ∉
      (cleanupCycle ⟨fun _ => false⟩ ["users/7/original/1/a.jpg", "processed/1/a.jpg"]
        [doneRow] 4000000 100).1 :=
  ⟨(sweeper_cycle_spec [doneRow] 4000000 100 ⟨fun _ => false⟩
      ["users/7/original/1/a.jpg", "processed/1/a.jpg"]).2.2.2.2.2.1 doneRow
      (by decide) (by decide) rfl,
   (sweeper_cycle_spec [doneRow] 4000000 100 ⟨fun _ => false⟩
      ["users/7/original/1/a.jpg", "processed/1/a.jpg"]).2.2.2.2.2.2 doneRow
      (by decide) (by decide) rfl⟩

/-- Every stored progress value is 0 or 100. -/
def Progress01 (s : Store) : Prop := ∀ j ∈ s, j.progress = 0 ∨ j.progress = 100

/-- The jobs table primary-key invariant: ids are pairwise distinct. -/
def UniqueIds (s : Store) : Prop := List.Pairwise (fun a b => a.id ≠ b.id) s

theorem uniqueIds_eq : ∀ {s : Store}, UniqueIds s →
    ∀ {a b : JobRow}, a ∈ s → b ∈ s → a.id = b.id → a = b := by
  intro s h
  induction h with
  | nil =>
    intro a b ha
    exact absurd ha (List.not_mem_nil a)
  | cons hx ht ih =>
    intro a b ha hb hid
    rcases List.mem_cons.mp ha with rfl | ha2
    · rcases List.mem_cons.mp hb with rfl | hb2
      · rfl
      · exact absurd hid (hx b hb2)
    · rcases List.mem_cons.mp hb with rfl | hb2
      · exact absurd hid.symm (hx a ha2)
      · exact ih ha2 hb2 hid

theorem ite_apply_id {p : JobRow → Bool} {f : JobRow → JobRow}
    (hf : ∀ r, (f r).id = r.id) (r : JobRow) :
    (if p r then f r else r).id = r.id := by
  by_cases hp : p r = true
  · rw [if_pos hp, hf]
  · rw [if_neg hp]

theorem progress01_updateWhere {p : JobRow → Bool} {f : JobRow → JobRow} {s : Store}
    (hf : ∀ r, (f r).progress = r.progress ∨ (f r).progress = 100)
    (h : Progress01 s) : Progress01 (updateWhere p f s).1 := by
  intro j hj
  rcases mem_updateWhere.mp hj with ⟨r, hr, hg⟩
  by_cases hp : p r = true
  · rw [if_pos hp] at hg
    cases hf r with
    | inl h1 => rw [← hg, h1]; exact h r hr
    | inr h1 => right; rw [← hg]; exact h1
  · rw [if_neg hp] at hg
    rw [← hg]
    exact h r hr

theorem uniqueIds_updateWhere {p : JobRow → Bool} {f : JobRow → JobRow} {s : Store}
    (hf : ∀ r, (f r).id = r.id) (h : UniqueIds s) : UniqueIds (updateWhere p f s).1 := by
  unfold UniqueIds updateWhere
  dsimp only
  rw [List.pairwise_map]
  refine h.imp ?_
  intro a b hab
  rw [ite_apply_id hf a, ite_apply_id hf b]
  exact hab

theorem mono_updateWhere {p : JobRow → Bool} {f : JobRow → JobRow} {s : Store}
    (hfid : ∀ r, (f r).id = r.id)
    (hfprog : ∀ r, (f r).progress = r.progress ∨ (f r).progress = 100)
    (h1 : Progress01 s) (h2 : UniqueIds s) :
    ∀ j ∈ s, ∀ j2 ∈ (updateWhere p f s).1, j.id = j2.id → j.progress ≤ j2.progress := by
  intro j hj j2 hj2 hid
  rcases mem_updateWhere.mp hj2 with ⟨r, hr, hg⟩
  have hj2id : j2.id = r.id := by rw [← hg]; exact ite_apply_id hfid r
  have hrj : r = j := uniqueIds_eq h2 hr hj (by rw [← hj2id]; exact hid.symm)
  subst hrj
  by_cases hp : p r = true
  · rw [if_pos hp] at hg
    cases hfprog r with
    | inl hpr => rw [← hg, hpr]
    | inr hpr =>
      rw [← hg, hpr]
      rcases h1 r hr with h0 | h0
      · rw [h0]; norm_num
      · rw [h0]
  · rw [if_neg hp] at hg
    rw [← hg]

theorem step_preserves_inv {s t : Store} (hstep : Step s t)
    (h1 : Progress01 s) (h2 : UniqueIds s) : Progress01 t ∧ UniqueIds t := by
  cases hstep with
  | createStep id userId key name ct size ops now hfresh =>
    constructor
    · intro j hj
      rcases List.mem_append.mp hj with hj2 | hj2
      · exact h1 j hj2
      · left
        rw [List.mem_singleton.mp hj2]
        rfl
    · unfold UniqueIds
      rw [List.pairwise_append]
      refine ⟨h2, List.pairwise_singleton _ _, ?_⟩
      intro a ha b hb
      rw [List.mem_singleton.mp hb]
      exact hfresh a ha
  | updateStatusStep id st hst =>
    exact ⟨progress01_updateWhere (fun r => Or.inl rfl) h1,
           uniqueIds_updateWhere (fun r => rfl) h2⟩
  | startProcessingStep now id w =>
    exact ⟨progress01_updateWhere (fun r => Or.inl rfl) h1,
           uniqueIds_updateWhere (fun r => rfl) h2⟩
  | failJobStep now id msg =>
    exact ⟨progress01_updateWhere (fun r => Or.inl rfl) h1,
           uniqueIds_updateWhere (fun r => rfl) h2⟩
  | cancelJobStep id =>
    exact ⟨progress01_updateWhere (fun r => Or.inl rfl) h1,
           uniqueIds_updateWhere (fun r => rfl) h2⟩
  | completeJobStep now id key =>
    cases hfind : s.find? (fun r => decide (r.id = id)) with
    | none =>
      have heq : (completeJob s now id key 1).1 = s := by
        unfold completeJob
        rw [hfind]
      rw [heq]
      exact ⟨h1, h2⟩
    | some row =>
      have heq : (completeJob s now id key 1).1 =
          (updateWhere (fun r => decide (r.id = id))
            (fun r => { r with
                        status := JobStatus.completed,
                        processedKey := some key,
                        progress := 100,
                        completedAt := some now,
                        processingTimeMs := some (match row.startedAt with
                          | some t => now - t
                          | none => 0),
                        deleteAt := some (now + 1 * 3600000) }) s).1 := by
        unfold completeJob
        rw [hfind]
      rw [heq]
      exact ⟨progress01_updateWhere (fun r => Or.inr rfl) h1,
             uniqueIds_updateWhere (fun r => rfl) h2⟩
  | deleteJobStep id =>
    constructor
    · intro j hj
      exact h1 j (List.mem_filter.mp hj).1
    · exact List.Pairwise.sublist (List.filter_sublist s) h2

theorem reachable_inv : ∀ {s : Store}, Reachable s → Progress01 s ∧ UniqueIds s := by
  intro s h
  induction h with
  | base => exact ⟨fun j hj => absurd hj (List.not_mem_nil j), List.Pairwise.nil⟩
  | step hr hstep ih => exact step_preserves_inv hstep ih.1 ih.2

theorem step_progress_mono {s t : Store} (hstep : Step s t)
    (h1 : Progress01 s) (h2 : UniqueIds s) :
    ∀ j ∈ s, ∀ j2 ∈ t, j.id = j2.id → j.progress ≤ j2.progress := by
  cases hstep with
  | createStep id userId key name ct size ops now hfresh =>
    intro j hj j2 hj2 hid
    rcases List.mem_append.mp hj2 with hj3 | hj3
    · rw [uniqueIds_eq h2 hj hj3 hid]
    · exfalso
      apply hfresh j hj
      rw [hid, List.mem_singleton.mp hj3]
      rfl
  | updateStatusStep id st hst =>
    exact mono_updateWhere (fun r => rfl) (fun r => Or.inl rfl) h1 h2
  | startProcessingStep now id w =>
    exact mono_updateWhere (fun r => rfl) (fun r => Or.inl rfl) h1 h2
  | failJobStep now id msg =>
    exact mono_updateWhere (fun r => rfl) (fun r => Or.inl rfl) h1 h2
  | cancelJobStep id =>
    exact mono_updateWhere (fun r => rfl) (fun r => Or.inl rfl) h1 h2
  | completeJobStep now id key =>
    cases hfind : s.find? (fun r => decide (r.id = id)) with
    | none =>
      have heq : (completeJob s now id key 1).1 = s := by
        unfold completeJob
        rw [hfind]
      rw [heq]
      intro j hj j2 hj2 hid
      rw [uniqueIds_eq h2 hj hj2 hid]
    | some row =>
      have heq : (completeJob s now id key 1).1 =
          (updateWhere (fun r => decide (r.id = id))
            (fun r => { r with
                        status := JobStatus.completed,
                        processedKey := some key,
                        progress := 100,
                        completedAt := some now,
                        processingTimeMs := some (match row.startedAt with
                          | some t => now - t
                          | none => 0),
                        deleteAt := some (now + 1 * 3600000) }) s).1 := by
        unfold completeJob
        rw [hfind]
      rw [heq]
      exact mono_updateWhere (fun r => rfl) (fun r => Or.inr rfl) h1 h2
  | deleteJobStep id =>
    intro j hj j2 hj2 hid
    rw [uniqueIds_eq h2 hj (List.mem_filter.mp hj2).1 hid]

/-- C10: on every table reachable through the mutations the components actually
perform — creation (progress 0 by schema default), the QUEUED and
PENDING status updates of the acceptor, cancellation, StartProcessing, CompleteJob (the only
writer of progress, setting 100), FailJob and the sweeper delete, with
UpdateProgress nowhere invoked — the progress of every row is 0 or 100, and across
any single further mutation the progress of a surviving row never decreases. -/
theorem progress_zero_or_hundred_monotone (s : Store) (h : Reachable s) :
    (∀ j ∈ s, j.progress = 0 ∨ j.progress = 100) ∧
    (∀ t : Store, Step s t → ∀ j ∈ s, ∀ j2 ∈ t, j.id = j2.id →
      j.progress ≤ j2.progress) := by
  have hinv := reachable_inv h
  exact ⟨hinv.1, fun t hstep => step_progress_mono hstep hinv.1 hinv.2⟩

theorem progress_zero_or_hundred_monotone_witness :
    (mkNewRow 1 7 "users/7/original/1/a.jpg" "a.jpg" "image/jpeg" 10 [] 0).progress = 0 ∨
    (mkNewRow 1 7 "users/7/original/1/a.jpg" "a.jpg" "image/jpeg" 10 [] 0).progress = 100 :=
  (progress_zero_or_hundred_monotone
    [mkNewRow 1 7 "users/7/original/1/a.jpg" "a.jpg" "image/jpeg" 10 [] 0]
    (Reachable.step Reachable.base
      (Step.createStep [] 1 7 "users/7/original/1/a.jpg" "a.jpg" "image/jpeg" 10 [] 0
        (fun r hr => absurd hr (List.not_mem_nil r))))).1
    (mkNewRow 1 7 "users/7/original/1/a.jpg" "a.jpg" "image/jpeg" 10 [] 0)
    (List.mem_singleton.mpr rfl)
